import Mathlib

/-
  Verification development for the armor edge server.

  Shallow embedding of:
  - the template / expression evaluator of src/plugin/plugin.go
    (Template.Execute, Expression.Evaluate, mapTag, backed by the
    fasttemplate placeholder scanner),
  - the plugin decoder of src/plugin/plugin.go (RawPlugin.Name,
    RawPlugin.Order, Decode, DefaultLookup),
  - the TLS certificate-selection closure of src/http.go (StartTLS,
    GetCertificate, including the key-pinning block).

  Strings are modelled as lists of characters so that the byte-level
  scanning done by fasttemplate and the expression lexer is explicit.
-/

set_option maxRecDepth 8192

namespace Armor

/-! ## Template scanner (fasttemplate, start tag `${`, end tag `}`)

`NewTemplate` / `NewExpression` build a `fasttemplate.Template` with start
tag `${` and end tag `}` (plugin.go:181, 196).  fasttemplate splits the
input into literal runs and tags: it repeatedly searches for the next
occurrence of `${`, then for the next `}` after it; the text in between is
the tag.  A `${` with no following `}` makes `fasttemplate.New` panic,
modelled by `none`. -/

/-- The single-quote character, written via its code point. -/
def sq : Char := Char.ofNat 39

/-- One parsed segment of a template: a literal character or a `${tag}`. -/
inductive Seg
  | lit (c : Char)
  | tag (t : List Char)
deriving DecidableEq, Repr

/-- Scanner mode: in literal text, just after a `$`, or inside a tag
(with the reversed accumulated tag characters). -/
inductive Mode
  | lit
  | dollar
  | tag (acc : List Char)

/-- Character-by-character scanner equivalent to fasttemplate's substring
search for `${` then `}`.  Unterminated tags yield `none` (fasttemplate
panics in `New`). -/
def scanTpl : Mode → List Char → Option (List Seg)
  | m, [] =>
    match m with
    | Mode.lit => some []
    | Mode.dollar => some [Seg.lit '$']
    | Mode.tag _ => none
  | m, c :: rest =>
    match m with
    | Mode.lit =>
      if c = '$' then scanTpl Mode.dollar rest
      else (scanTpl Mode.lit rest).map (fun segs => Seg.lit c :: segs)
    | Mode.dollar =>
      if c = '{' then scanTpl (Mode.tag []) rest
      else if c = '$' then (scanTpl Mode.dollar rest).map (fun segs => Seg.lit '$' :: segs)
      else (scanTpl Mode.lit rest).map (fun segs => Seg.lit '$' :: Seg.lit c :: segs)
    | Mode.tag acc =>
      if c = '}' then (scanTpl Mode.lit rest).map (fun segs => Seg.tag acc.reverse :: segs)
      else scanTpl (Mode.tag (c :: acc)) rest

/-- Parse a template string into segments (fasttemplate.New). -/
def parseTpl (cs : List Char) : Option (List Seg) := scanTpl Mode.lit cs

/-- `true` iff the input contains the two-character start tag `${`
somewhere, i.e. contains placeholder syntax. -/
def hasTS : List Char → Bool
  | [] => false
  | [_] => false
  | a :: b :: rest => (a = '$' && b = '{') || hasTS (b :: rest)

/-! ## Request context and `mapTag` (plugin.go:220-242) -/

/-- The part of `echo.Context` that `mapTag` reads: fixed request fields
plus named lookups for headers, path params, query params and form
values.  Absent values are the empty string, as in echo. -/
structure Ctx where
  scheme : List Char
  method : List Char
  uri : List Char
  path : List Char
  header : List Char → List Char
  param : List Char → List Char
  queryParam : List Char → List Char
  formValue : List Char → List Char

/-- `mapTag` (plugin.go:220-242): exact tags first, then prefix dispatch
`header:`, `path:`, `query:`, `form:`; any other tag writes nothing. -/
def mapTag (c : Ctx) (t : List Char) : List Char :=
  if t = ("scheme").data then c.scheme
  else if t = ("method").data then c.method
  else if t = ("uri").data then c.uri
  else if t = ("path").data then c.path
  else if ("header:").data.isPrefixOf t then c.header (t.drop 7)
  else if ("path:").data.isPrefixOf t then c.param (t.drop 5)
  else if ("query:").data.isPrefixOf t then c.queryParam (t.drop 6)
  else if ("form:").data.isPrefixOf t then c.formValue (t.drop 5)
  else []

/-! ## Template.Execute (plugin.go:184-193)

`ExecuteFunc` writes literal runs to the buffer and calls the tag
callback for each tag; the callback's error, if any, is returned.  In
`Template.Execute` the callback appends `mapTag` output to the same
buffer and returns a nil error. -/

/-- fasttemplate's `ExecuteFunc` over parsed segments: the callback
returns the text to append and an optional error; the first callback
error stops execution and is returned. -/
def executeFuncE (f : List Char → List Char × Option String) :
    List Seg → List Char × Option String
  | [] => ([], none)
  | Seg.lit c :: rest =>
    let r := executeFuncE f rest
    (c :: r.1, r.2)
  | Seg.tag t :: rest =>
    match f t with
    | (out, some e) => (out, some e)
    | (out, none) =>
      let r := executeFuncE f rest
      (out ++ r.1, r.2)

/-- The `Template.Execute` callback (plugin.go:188-191): write
`mapTag`, report no error. -/
def templateExecuteE (c : Ctx) (segs : List Seg) : List Char × Option String :=
  executeFuncE (fun t => (mapTag c t, none)) segs

/-- `Template.Execute` on a template source string: parse (`NewTemplate`)
then render; the pair is (rendered text, error returned by Execute). -/
def templateExecute (c : Ctx) (cs : List Char) : Option (List Char × Option String) :=
  (parseTpl cs).map (templateExecuteE c)

/-! ## Expression.Evaluate (plugin.go:199-218)

The tag callback writes a single quote, the `mapTag` value, and a closing
single quote (plugin.go:205-207); the substituted text is then handed to
govaluate.  govaluate is an external dependency; the fragment of its
expression language exercised here is modelled from the spec:
single-quoted string literals, whitespace, and the comparison operator
`==` on strings ("standard operators: comparison, logical and/or/not,
arithmetic"; characters outside the modelled fragment are a parse
error). -/

/-- The quoting the `Evaluate` callback applies to each resolved value. -/
def quoteTag (c : Ctx) (t : List Char) : List Char :=
  sq :: (mapTag c t ++ [sq])

/-- Quoting applied to a bare value (the callback's three writes). -/
def quoteVal (v : List Char) : List Char := sq :: (v ++ [sq])

/-- Tokens of the modelled expression fragment. -/
inductive Tok
  | str (s : List Char)
  | eq
deriving DecidableEq, Repr

/-- Lexer mode: top level, inside a single-quoted string (reversed
accumulator), or after a first `=`. -/
inductive LMode
  | top
  | strM (acc : List Char)
  | eqM

/-- Modelled from the spec: the govaluate lexer restricted to the
fragment used by skip conditions — a single quote delimits a string
literal (every character up to the next quote is literal content), `==`
is the equality operator, spaces separate tokens, anything else is a
parse error (`none`). -/
def lexE : LMode → List Char → Option (List Tok)
  | LMode.top, [] => some []
  | LMode.strM _, [] => none
  | LMode.eqM, [] => none
  | LMode.top, c :: rest =>
    if c = sq then lexE (LMode.strM []) rest
    else if c = '=' then lexE LMode.eqM rest
    else if c = ' ' then lexE LMode.top rest
    else none
  | LMode.strM acc, c :: rest =>
    if c = sq then (lexE LMode.top rest).map (fun ts => Tok.str acc.reverse :: ts)
    else lexE (LMode.strM (c :: acc)) rest
  | LMode.eqM, c :: rest =>
    if c = '=' then (lexE LMode.top rest).map (fun ts => Tok.eq :: ts)
    else none

/-- A govaluate result value: a string or a boolean. -/
inductive Value
  | str (s : List Char)
  | bool (b : Bool)
deriving DecidableEq, Repr

/-- Modelled from the spec: evaluation of the lexed fragment — a lone
string literal evaluates to itself, `a == b` compares strings; other
token shapes are an evaluation error. -/
def evalToks : List Tok → Option Value
  | [Tok.str s] => some (Value.str s)
  | [Tok.str a, Tok.eq, Tok.str b] => some (Value.bool (decide (a = b)))
  | _ => none

/-- `Expression.Evaluate` (plugin.go:199-218): substitute each tag with
its quoted value, then parse and evaluate the resulting text; `none`
models the error return (template error, parse error or evaluation
error). -/
def expressionEvaluate (c : Ctx) (cs : List Char) : Option Value :=
  match parseTpl cs with
  | none => none
  | some segs =>
    let r := executeFuncE (fun t => (quoteTag c t, none)) segs
    match r.2 with
    | some _ => none
    | none =>
      match lexE LMode.top r.1 with
      | none => none
      | some toks => evalToks toks

/-! ## Plugin decoder (plugin.go:131-170)

`RawPlugin` is `map[string]interface{}`; `Name` and `Order` are Go type
assertions that panic when the key is absent or has the wrong dynamic
type.  `Decode` panics on an unknown plugin name and on a field-decode
error; it has no error return at all.  Go panics are modelled by
`GoResult.panicked`. -/

/-- Dynamic values stored in a `RawPlugin` record. -/
inductive GoVal
  | str (s : String)
  | int (n : Int)
  | bool (b : Bool)
  | other
deriving DecidableEq, Repr

/-- Association-list lookup (first match), modelling Go map indexing. -/
def lookupAssoc {α : Type} : List (String × α) → String → Option α
  | [], _ => none
  | (k, v) :: rest, key => if k = key then some v else lookupAssoc rest key

/-- A plugin configuration record (`map[string]interface{}`). -/
def RawPlugin : Type := List (String × GoVal)

/-- The result of running a Go function that can panic. -/
inductive GoResult (α : Type)
  | ok (a : α)
  | panicked (msg : String)
deriving DecidableEq, Repr

/-- The `Base` fields `Decode` fills before the field decode
(plugin.go:150-157); the mutex, echo handle and logger are out of
scope. -/
structure Base where
  name : String
  order : Int
  skip : String
deriving DecidableEq, Repr

/-- The fixed plugin-kind identifiers (plugin.go:52-69), exactly the
names `DefaultLookup` recognises (plugin.go:76-116); any other name
makes `Lookup` return nil. -/
def pluginNames : List String :=
  [("body-limit"), ("logger"), ("redirect"), ("https-redirect"),
   ("https-www-redirect"), ("https-non-www-redirect"), ("www-redirect"),
   ("non-www-redirect"), ("add-trailing-slash"), ("remove-trailing-slash"),
   ("rewrite"), ("secure"), ("cors"), ("gzip"), ("header"), ("proxy"),
   ("static"), ("file")]

/-- `RawPlugin.Name` (plugin.go:131-133): the type assertion
`rp["name"].(string)` panics unless the key holds a string. -/
def rpName (r : RawPlugin) : GoResult String :=
  match lookupAssoc r ("name") with
  | some (GoVal.str s) => GoResult.ok s
  | _ => GoResult.panicked ("name type assertion failed")

/-- `RawPlugin.Order` (plugin.go:135-137): the type assertion
`rp["order"].(int)` panics unless the key holds an int. -/
def rpOrder (r : RawPlugin) : GoResult Int :=
  match lookupAssoc r ("order") with
  | some (GoVal.int n) => GoResult.ok n
  | _ => GoResult.panicked ("order type assertion failed")

/-- `Decode` (plugin.go:148-170).  `md` models the mapstructure field
decode over the kind-specific plugin struct (those structs live outside
src/plugin/plugin.go); a decode error is panicked (plugin.go:167), an
unknown name is panicked with `plugin=<name> not found` (plugin.go:159),
and the name/order extraction panics as above. -/
def Decode (md : RawPlugin → Base → Except String Base) (r : RawPlugin) :
    GoResult Base :=
  match rpName r with
  | GoResult.panicked e => GoResult.panicked e
  | GoResult.ok name =>
    match rpOrder r with
    | GoResult.panicked e => GoResult.panicked e
    | GoResult.ok order =>
      let base : Base := { name := name, order := order, skip := ("false") }
      if name ∈ pluginNames then
        match md r base with
        | Except.error e => GoResult.panicked e
        | Except.ok p => GoResult.ok p
      else GoResult.panicked (("plugin=") ++ name ++ (" not found"))

/-- Helper used to state hypotheses about records: the string held at a
key, if any. -/
def strOf : Option GoVal → Option String
  | some (GoVal.str s) => some s
  | _ => none

/-- Helper used to state hypotheses about records: the int held at a
key, if any. -/
def intOf : Option GoVal → Option Int
  | some (GoVal.int n) => some n
  | _ => none

/-! ## TLS certificate selection (http.go:160-197)

The `GetCertificate` closure installed by `StartTLS`:
manual certificates are consulted first through `NameToCertificate`
(http.go:161-163); otherwise, when `TLS.Auto` is set, the autocert
manager is asked (http.go:164-168) and, when `TLS.KeyPinning` is set, the
served chain's public-key hashes are recorded in the pin cache
(http.go:170-193); with no manual certificate and `Auto` unset the
closure returns `nil, nil` (http.go:196).

The x509 parse, PKIX public-key marshalling, SHA-256 and base64 steps of
http.go:178-187 are external library calls; `keyHash` abstracts
`base64(SHA256(MarshalPKIXPublicKey(ParseCertificate(der).PublicKey)))`,
with `none` for a parse or marshal failure (which makes the closure
return `nil, err`).  The autocert manager (including its host whitelist)
is abstracted as `manager`. -/

/-- A `tls.Certificate`: the chain of DER blobs (abstracted as `Nat`). -/
structure TLSCert where
  certificate : List Nat
deriving DecidableEq, Repr

/-- The `(certificate, error)` pair returned by `GetCertificate`:
a certificate with nil error, a nil certificate with an error, or
`nil, nil`. -/
inductive CertResult
  | cert (c : TLSCert)
  | err (e : String)
  | noCert
deriving DecidableEq, Repr

/-- A host's pin set (`pins.m map[string]struct{}`), as the list of its
members. -/
abbrev PinSet : Type := List String

/-- The pin cache (`pinning.pins map[string]*pins`). -/
abbrev PinCache : Type := List (String × PinSet)

/-- Insert-if-absent into a pin set (`hostPins.m[hash] = struct{}{}`,
http.go:188). -/
def pinInsert (h : String) (s : PinSet) : PinSet :=
  if h ∈ s then s else s ++ [h]

/-- The hash loop of http.go:177-189: for each DER blob compute its key
hash and insert it; a hash failure stops the loop and carries the error
(http.go:179-184), returning the set built so far. -/
def addHashes (keyHash : Nat → Option String) :
    PinSet → List Nat → PinSet × Option String
  | s, [] => (s, none)
  | s, d :: rest =>
    match keyHash d with
    | none => (s, some ("pinning: bad certificate"))
    | some h => addHashes keyHash (pinInsert h s) rest

/-- Store a host's pin set back into the cache
(`pins.pins[serverName] = hostPins`, http.go:192): overwrite the entry
if present, else add it. -/
def storePins : PinCache → String → PinSet → PinCache
  | [], sn, s => [(sn, s)]
  | (k, v) :: rest, sn, s =>
    if k = sn then (sn, s) :: rest else (k, v) :: storePins rest sn s

/-- The server state the closure reads: the manual certificate table
built by `BuildNameToCertificate` (http.go:157), the `TLS.Auto` and
`TLS.KeyPinning` flags, and the pin cache. -/
structure TLSState where
  nameToCert : List (String × TLSCert)
  auto : Bool
  keyPinning : Bool
  pins : PinCache

/-- The `GetCertificate` closure (http.go:160-197).  On a hash failure
the closure returns early (http.go:180, 184) without executing the
locked store; when the host already had a pin entry, `hostPins` aliases
the cached struct, so the insertions made before the failure are
nevertheless visible in the cache — modelled by the inner `match` on the
existing entry. -/
def getCertificate (keyHash : Nat → Option String)
    (manager : String → Except String TLSCert)
    (st : TLSState) (serverName : String) : CertResult × PinCache :=
  match lookupAssoc st.nameToCert serverName with
  | some crt => (CertResult.cert crt, st.pins)
  | none =>
    if st.auto then
      match manager serverName with
      | Except.error e => (CertResult.err e, st.pins)
      | Except.ok crt =>
        if st.keyPinning then
          match addHashes keyHash ((lookupAssoc st.pins serverName).getD [])
              crt.certificate with
          | (s2, some e) =>
            (CertResult.err e,
             match lookupAssoc st.pins serverName with
             | some _ => storePins st.pins serverName s2
             | none => st.pins)
          | (s2, none) => (CertResult.cert crt, storePins st.pins serverName s2)
        else (CertResult.cert crt, st.pins)
    else (CertResult.noCert, st.pins)

/-! ## Interleaving model of the pinning block (http.go:170-193)

Two handshakes for the same never-before-pinned host run the pinning
block concurrently.  The block's statement order is:
- read the host's pin set from the cache, nil meaning fresh
  (http.go:171-175) — before the mutex is taken;
- insert the chain's key hashes into the (local, fresh) set
  (http.go:177-189) — before the mutex is taken;
- `mutex.Lock()` (http.go:190);
- store the set back into the cache (http.go:192);
- `mutex.Unlock()` (deferred, http.go:191).

Each bullet is one atomic step of a thread; the shared state is the
host's cached pin set and the mutex.  The store overwrites the cache
entry with the thread's local set, exactly as the Go map assignment
does. -/

/-- Program counter of a thread running the pinning block. -/
inductive PC
  | start
  | readDone
  | computed
  | locked
  | stored
  | done
deriving DecidableEq, Repr

/-- A thread: its position in the block, its local `hostPins` set, and
the key hashes of the chain it is serving. -/
structure PinThread where
  pc : PC
  localSet : PinSet
  hashes : List String
deriving DecidableEq, Repr

/-- Insert a list of hashes into a pin set (the loop of
http.go:177-189, with all hashes computing successfully). -/
def insertAll (hs : List String) (s : PinSet) : PinSet :=
  hs.foldl (fun acc h => pinInsert h acc) s

/-- One atomic step of a thread against the shared pin set and mutex.
Reading and inserting ignore the mutex (they precede `Lock()` in the
code); acquiring blocks (`none`) while the mutex is held; the store
overwrites the shared set with the local one. -/
def pinThreadStep (shared : PinSet) (held : Bool) (t : PinThread) :
    Option (PinSet × Bool × PinThread) :=
  match t.pc with
  | PC.start =>
    some (shared, held, { t with localSet := shared, pc := PC.readDone })
  | PC.readDone =>
    some (shared, held,
      { t with localSet := insertAll t.hashes t.localSet, pc := PC.computed })
  | PC.computed =>
    if held then none else some (shared, true, { t with pc := PC.locked })
  | PC.locked =>
    some (t.localSet, held, { t with pc := PC.stored })
  | PC.stored =>
    some (shared, false, { t with pc := PC.done })
  | PC.done => none

/-- Two threads over the shared pin set and mutex. -/
structure PinSys where
  shared : PinSet
  mutexHeld : Bool
  t1 : PinThread
  t2 : PinThread
deriving DecidableEq, Repr

/-- Scheduler step: `true` steps thread 1, `false` steps thread 2. -/
def sysStep (s : PinSys) (which : Bool) : Option PinSys :=
  if which then
    (pinThreadStep s.shared s.mutexHeld s.t1).map
      (fun r => { shared := r.1, mutexHeld := r.2.1, t1 := r.2.2, t2 := s.t2 })
  else
    (pinThreadStep s.shared s.mutexHeld s.t2).map
      (fun r => { shared := r.1, mutexHeld := r.2.1, t1 := s.t1, t2 := r.2.2 })

/-- Run a schedule to completion; `none` if some step blocks. -/
def runSched : List Bool → PinSys → Option PinSys
  | [], s => some s
  | w :: rest, s =>
    match sysStep s w with
    | none => none
    | some s2 => runSched rest s2

/-- Initial system: empty shared pin set (cold host), free mutex, each
thread about to record one hash. -/
def pinInit (a b : String) : PinSys :=
  { shared := [], mutexHeld := false,
    t1 := { pc := PC.start, localSet := [], hashes := [a] },
    t2 := { pc := PC.start, localSet := [], hashes := [b] } }

/-- Thread 1 runs the whole block, then thread 2 does. -/
def pinSeqSched : List Bool :=
  [true, true, true, true, true, false, false, false, false, false]

/-- Both threads read and insert before either takes the mutex; each
then stores under the mutex. -/
def pinRaceSched : List Bool :=
  [true, true, false, false, true, true, true, false, false, false]

/-! ## Concrete fixtures used by witnesses and counterexamples -/

/-- A request context with method `GET` and everything else empty. -/
def ctxGET : Ctx :=
  { scheme := [], method := ("GET").data, uri := [], path := [],
    header := fun _ => [], param := fun _ => [], queryParam := fun _ => [],
    formValue := fun _ => [] }

/-- The same context with method `POST`. -/
def ctxPOST : Ctx := { ctxGET with method := ("POST").data }

/-- The template source `${method} == 'GET'` from the spec's example. -/
def tplMethodEq : List Char :=
  ("${method} == ").data ++ sq :: ("GET").data ++ [sq]

/-- A request method value containing quote characters:
`GET' == 'GET`. -/
def injVal : List Char :=
  ("GET").data ++ sq :: (" == ").data ++ sq :: ("GET").data

/-- The context carrying the quote-bearing method value. -/
def ctxInj : Ctx := { ctxGET with method := injVal }

/-- The template consisting of the single placeholder `${method}`. -/
def tplMethodOnly : List Char := ("${method}").data

/-- A field decode that accepts everything (mapstructure succeeding). -/
def mdOk : RawPlugin → Base → Except String Base := fun _ b => Except.ok b

/-- A manually loaded certificate. -/
def crtManual : TLSCert := { certificate := [3] }

/-- A server state with a manual certificate for `example.com`,
auto-provisioning and pinning both enabled. -/
def stManual : TLSState :=
  { nameToCert := [(("example.com"), crtManual)], auto := true,
    keyPinning := true, pins := [] }

/-- The certificate served by the fixture provisioning manager. -/
def crtAuto : TLSCert := { certificate := [7] }

/-- A key-hash function for the fixtures. -/
def khFix : Nat → Option String := fun _ => some ("h7")

/-- A provisioning manager that always serves `crtAuto`. -/
def mgrFix : String → Except String TLSCert := fun _ => Except.ok crtAuto

/-- A state with no manual certificates, auto-provisioning and pinning
enabled, empty pin cache. -/
def stAuto : TLSState :=
  { nameToCert := [], auto := true, keyPinning := true, pins := [] }

/-- A state with pinning disabled. -/
def stNoPin : TLSState :=
  { nameToCert := [], auto := true, keyPinning := false, pins := [] }

/-- A state with neither manual certificates nor auto-provisioning. -/
def stPlain : TLSState :=
  { nameToCert := [], auto := false, keyPinning := false, pins := [] }

/-- The final system state reached by the racing schedule. -/
def pinRaceFinal : PinSys :=
  { shared := [("hashB")], mutexHeld := false,
    t1 := { pc := PC.done, localSet := [("hashA")], hashes := [("hashA")] },
    t2 := { pc := PC.done, localSet := [("hashB")], hashes := [("hashB")] } }

/-! ## Lemmas about the template scanner -/

/-- Scanning placeholder-free text yields exactly the literal segments:
in literal mode when the text has no `${`, and in dollar mode when the
pending `$` does not begin a `${`. -/
theorem scanTpl_no_ts (cs : List Char) :
    (hasTS cs = false → scanTpl Mode.lit cs = some (cs.map Seg.lit))
  ∧ (hasTS ('$' :: cs) = false →
      scanTpl Mode.dollar cs = some (Seg.lit '$' :: cs.map Seg.lit)) := by
  induction cs with
  | nil =>
    exact ⟨fun _ => rfl, fun _ => rfl⟩
  | cons c rest ih =>
    constructor
    · intro h
      by_cases hc : c = '$'
      · subst hc
        have h2 := ih.2 h
        simp [scanTpl, h2]
      · have hrest : hasTS rest = false := by
          cases rest with
          | nil => rfl
          | cons b rs =>
            simp [hasTS] at h
            simp [hasTS, h.2]
        have h1 := ih.1 hrest
        simp [scanTpl, hc, h1]
    · intro h
      simp [hasTS] at h
      have hbrace : ¬ (c = '{') := by
        intro hc
        exact absurd h.1 (by simp [hc])
      have hrest2 : hasTS (c :: rest) = false := h.2
      by_cases hc : c = '$'
      · subst hc
        have h2 := ih.2 hrest2
        simp [scanTpl, hbrace, h2]
      · have hrest : hasTS rest = false := by
          cases rest with
          | nil => rfl
          | cons b rs =>
            simp [hasTS] at hrest2
            simp [hasTS, hrest2.2]
        have h1 := ih.1 hrest
        simp [scanTpl, hbrace, hc, h1]

/-- Rendering literal segments reproduces the text, with no error. -/
theorem executeFuncE_map_lit (f : List Char → List Char × Option String) :
    ∀ cs : List Char, executeFuncE f (cs.map Seg.lit) = (cs, none) := by
  intro cs
  induction cs with
  | nil => rfl
  | cons c rest ih => simp [executeFuncE, ih]

/-- The callback never erroring means `ExecuteFunc` never errors. -/
theorem executeFuncE_no_err (f : List Char → List Char × Option String)
    (hf : ∀ t, (f t).2 = none) :
    ∀ segs : List Seg, (executeFuncE f segs).2 = none := by
  intro segs
  induction segs with
  | nil => rfl
  | cons s rest ih =>
    cases s with
    | lit c => simp [executeFuncE, ih]
    | tag t =>
      have := hf t
      cases hft : f t with
      | mk out err =>
        rw [hft] at this
        simp at this
        subst this
        simp [executeFuncE, hft, ih]

/-! ## Lemmas about the expression lexer -/

/-- Inside a string literal, quote-free text is consumed verbatim up to
the closing quote. -/
theorem lexE_str_no_quote :
    ∀ (v acc rest : List Char), sq ∉ v →
      lexE (LMode.strM acc) (v ++ sq :: rest)
        = (lexE LMode.top rest).map (fun ts => Tok.str (acc.reverse ++ v) :: ts) := by
  intro v
  induction v with
  | nil =>
    intro acc rest _
    simp [lexE]
  | cons c v ih =>
    intro acc rest h
    have hc : ¬ (c = sq) := by
      intro hc
      exact h (by simp [hc])
    have hv : sq ∉ v := by
      intro hm
      exact h (by simp [hm])
    have step : lexE (LMode.strM acc) ((c :: v) ++ sq :: rest)
        = lexE (LMode.strM (c :: acc)) (v ++ sq :: rest) := by
      simp [lexE, hc]
    rw [step, ih (c :: acc) rest hv]
    simp

/-! ## Lemmas about pin sets and the pin cache -/

/-- The inserted hash is a member afterwards. -/
theorem mem_pinInsert_self (h : String) (s : PinSet) : h ∈ pinInsert h s := by
  unfold pinInsert
  split
  · assumption
  · simp

/-- Insertion preserves existing members. -/
theorem mem_pinInsert_of_mem (x h : String) (s : PinSet) (hx : x ∈ s) :
    x ∈ pinInsert h s := by
  unfold pinInsert
  split
  · exact hx
  · simp [hx]

/-- Inserting a present hash changes nothing (insert-if-absent). -/
theorem pinInsert_of_mem (h : String) (s : PinSet) (hs : h ∈ s) :
    pinInsert h s = s := by
  unfold pinInsert
  simp [hs]

/-- The hash loop, when every hash computes: no error, old members kept,
every chain hash present afterwards. -/
theorem addHashes_all_ok (keyHash : Nat → Option String) :
    ∀ (l : List Nat) (s : PinSet), (∀ d ∈ l, (keyHash d).isSome) →
      (addHashes keyHash s l).2 = none
    ∧ (∀ x ∈ s, x ∈ (addHashes keyHash s l).1)
    ∧ (∀ d ∈ l, ∀ hv, keyHash d = some hv → hv ∈ (addHashes keyHash s l).1) := by
  intro l
  induction l with
  | nil =>
    intro s _
    refine ⟨rfl, fun x hx => hx, ?_⟩
    intro d hd
    exact absurd hd (List.not_mem_nil d)
  | cons d rest ih =>
    intro s hall
    have hd : (keyHash d).isSome := hall d (by simp)
    obtain ⟨hv, hhv⟩ := Option.isSome_iff_exists.mp hd
    have hrest : ∀ x ∈ rest, (keyHash x).isSome := by
      intro x hx
      exact hall x (by simp [hx])
    have ihs := ih (pinInsert hv s) hrest
    have step : addHashes keyHash s (d :: rest)
        = addHashes keyHash (pinInsert hv s) rest := by
      simp [addHashes, hhv]
    refine ⟨by rw [step]; exact ihs.1, ?_, ?_⟩
    · intro x hx
      rw [step]
      exact ihs.2.1 x (mem_pinInsert_of_mem x hv s hx)
    · intro d2 hd2 hv2 hkh2
      rw [step]
      rcases List.mem_cons.mp hd2 with h1 | h2
      · subst h1
        have : hv2 = hv := by
          rw [hkh2] at hhv
          exact Option.some_injective _ hhv
        subst this
        exact ihs.2.1 hv2 (mem_pinInsert_self hv2 s)
      · exact ihs.2.2 d2 h2 hv2 hkh2

/-- The hash loop is the identity when every chain hash is already
pinned. -/
theorem addHashes_fixed (keyHash : Nat → Option String) :
    ∀ (l : List Nat) (s : PinSet),
      (∀ d ∈ l, ∃ hv, keyHash d = some hv ∧ hv ∈ s) →
      addHashes keyHash s l = (s, none) := by
  intro l
  induction l with
  | nil => intro s _; rfl
  | cons d rest ih =>
    intro s hall
    obtain ⟨hv, hhv, hmem⟩ := hall d (by simp)
    have step : addHashes keyHash s (d :: rest)
        = addHashes keyHash (pinInsert hv s) rest := by
      simp [addHashes, hhv]
    rw [step, pinInsert_of_mem hv s hmem]
    apply ih
    intro d2 hd2
    exact hall d2 (by simp [hd2])

/-- Looking up the host just stored finds the stored set. -/
theorem storePins_lookup_self :
    ∀ (pc : PinCache) (sn : String) (s : PinSet),
      lookupAssoc (storePins pc sn s) sn = some s := by
  intro pc
  induction pc with
  | nil => intro sn s; simp [storePins, lookupAssoc]
  | cons kv rest ih =>
    intro sn s
    by_cases hk : kv.1 = sn
    · simp [storePins, hk, lookupAssoc]
    · simp [storePins, hk, lookupAssoc, ih]

/-- Storing back the set a host already maps to leaves the cache
unchanged. -/
theorem storePins_self :
    ∀ (pc : PinCache) (sn : String) (s : PinSet),
      lookupAssoc pc sn = some s → storePins pc sn s = pc := by
  intro pc
  induction pc with
  | nil => intro sn s h; simp [lookupAssoc] at h
  | cons kv rest ih =>
    obtain ⟨k, v⟩ := kv
    intro sn s h
    by_cases hk : k = sn
    · have : v = s := by
        simp [lookupAssoc, hk] at h
        exact h
      simp [storePins, hk, ← this]
    · simp [lookupAssoc, hk] at h
      simp [storePins, hk, ih sn s h]

/-! ## Claim theorems -/

/-- Claim C8: for every input string containing no `${...}` placeholder
syntax and every request context, `Template.Execute` returns that input
string unchanged (and a nil error). -/
theorem render_without_placeholders_unchanged (c : Ctx) (cs : List Char)
    (h : hasTS cs = false) :
    templateExecute c cs = some (cs, none) := by
  unfold templateExecute parseTpl
  rw [(scanTpl_no_ts cs).1 h]
  simp [templateExecuteE, executeFuncE_map_lit]

/-- Witness for C8 at a concrete placeholder-free input that even
contains a lone dollar sign. -/
theorem render_without_placeholders_witness :
    templateExecute ctxGET (("plain text and a lone dollar $").data)
      = some ((("plain text and a lone dollar $").data), none) :=
  render_without_placeholders_unchanged ctxGET
    (("plain text and a lone dollar $").data) (by decide)

/-- Claim C9: evaluating `${method} == 'GET'` against a context with
method `GET` yields boolean true, and with method `POST` yields boolean
false, with no error (`some` result). -/
theorem evaluate_method_eq_get :
    expressionEvaluate ctxGET tplMethodEq = some (Value.bool true)
  ∧ expressionEvaluate ctxPOST tplMethodEq = some (Value.bool false) := by
  decide

/-- Claim C10: for every request context and every parsed template, the
error component returned by `Template.Execute` is nil: the tag callback
always reports success. -/
theorem template_execute_error_always_nil (c : Ctx) (segs : List Seg) :
    (templateExecuteE c segs).2 = none :=
  executeFuncE_no_err (fun t => (mapTag c t, none)) (fun _ => rfl) segs

/-- Counterexample to claim C1: the method value `GET' == 'GET` is not
treated as a string literal by `Expression.Evaluate` — the template
`${method}` evaluates to boolean true (its `==` acts as the equality
operator), not to the string value itself. -/
theorem evaluate_quote_injection_cex :
    expressionEvaluate ctxInj tplMethodOnly = some (Value.bool true)
  ∧ expressionEvaluate ctxInj tplMethodOnly ≠ some (Value.str injVal) := by
  decide

/-- Claim C1 as amended: a substituted value containing no single-quote
character is treated strictly as one string literal — its quoted form
lexes as exactly the string token carrying the value, so none of its
characters can act as an operator. -/
theorem quoted_value_single_literal (v : List Char) (h : sq ∉ v) :
    lexE LMode.top (quoteVal v) = some [Tok.str v] := by
  have step : lexE LMode.top (quoteVal v) = lexE (LMode.strM []) (v ++ [sq]) := by
    simp [quoteVal, lexE]
  rw [step]
  have h2 := lexE_str_no_quote v [] [] h
  simpa [lexE] using h2

/-- Witness for the amended C1 at the quote-free value `P OST=x`. -/
theorem quoted_value_single_literal_witness :
    lexE LMode.top (quoteVal (("P OST=x").data))
      = some [Tok.str (("P OST=x").data)] :=
  quoted_value_single_literal (("P OST=x").data) (by decide)

/-- Counterexample to claim C2: with no manual certificate and
auto-provisioning disabled, `GetCertificate` returns `nil, nil` — no
certificate and no error — instead of failing the handshake with a
`NoCertificateError`. -/
theorem get_certificate_nil_nil_cex :
    getCertificate (fun _ => none) (fun _ => Except.error ("acme failure"))
      stPlain ("no-cert.example") = (CertResult.noCert, []) := by
  decide

/-- Claim C2 as amended: for a server name with no manual certificate,
when auto-provisioning is disabled `GetCertificate` returns no
certificate and no error (so the handshake proceeds without a
certificate rather than failing with `NoCertificateError`); when
auto-provisioning is enabled and the manager rejects the host (e.g. not
whitelisted), the manager's error is returned and fails the
handshake. -/
theorem no_manual_cert_resolution (keyHash : Nat → Option String)
    (manager : String → Except String TLSCert) (st : TLSState) (sn : String)
    (h1 : lookupAssoc st.nameToCert sn = none) :
    (st.auto = false →
      getCertificate keyHash manager st sn = (CertResult.noCert, st.pins))
  ∧ (∀ e, manager sn = Except.error e → st.auto = true →
      getCertificate keyHash manager st sn = (CertResult.err e, st.pins)) := by
  constructor
  · intro h2
    unfold getCertificate
    rw [h1, h2]
    rfl
  · intro e hmgr h2
    unfold getCertificate
    rw [h1, h2, hmgr]
    rfl

/-- Witness for the amended C2: the auto-disabled conjunct at the
concrete no-certificate state. -/
theorem no_manual_cert_resolution_witness :
    getCertificate (fun _ => none) (fun _ => Except.error ("down"))
      stPlain ("w.example") = (CertResult.noCert, stPlain.pins) :=
  (no_manual_cert_resolution (fun _ => none) (fun _ => Except.error ("down"))
    stPlain ("w.example") rfl).1 rfl

/-- Claim C4: a manually configured certificate matching the handshake
server name is returned as is, with the pin cache untouched, for every
provisioning manager — the auto-provisioning path is not consulted. -/
theorem manual_cert_takes_precedence (keyHash : Nat → Option String)
    (manager : String → Except String TLSCert) (st : TLSState) (sn : String)
    (c : TLSCert) (h : lookupAssoc st.nameToCert sn = some c) :
    getCertificate keyHash manager st sn = (CertResult.cert c, st.pins) := by
  unfold getCertificate
  rw [h]

/-- Witness for C4: `example.com` has a manual certificate, auto and
pinning are enabled, and the manager would serve a different
certificate; the manual one is returned. -/
theorem manual_cert_takes_precedence_witness :
    getCertificate khFix mgrFix stManual ("example.com")
      = (CertResult.cert crtManual, stManual.pins) :=
  manual_cert_takes_precedence khFix mgrFix stManual ("example.com")
    crtManual (by decide)

/-- Claim C7: resolution for a host with a manual certificate, or with
key pinning disabled, leaves the pin cache unchanged — recording happens
only on the auto-provisioning branch with pinning enabled. -/
theorem pins_unchanged_outside_auto_pinning (keyHash : Nat → Option String)
    (manager : String → Except String TLSCert) (st : TLSState) (sn : String)
    (h : (∃ c, lookupAssoc st.nameToCert sn = some c) ∨ st.keyPinning = false) :
    (getCertificate keyHash manager st sn).2 = st.pins := by
  rcases h with ⟨c, hc⟩ | hkp
  · unfold getCertificate
    rw [hc]
  · unfold getCertificate
    cases hl : lookupAssoc st.nameToCert sn with
    | some c => rfl
    | none =>
      cases hauto : st.auto with
      | false => rfl
      | true =>
        cases hmgr : manager sn with
        | error e => rfl
        | ok crt => simp [hkp]

/-- Witness for C7: an auto-provisioned resolution with pinning disabled
leaves the (empty) pin cache empty. -/
theorem pins_unchanged_witness :
    (getCertificate khFix mgrFix stNoPin ("h.example")).2 = stNoPin.pins :=
  pins_unchanged_outside_auto_pinning khFix mgrFix stNoPin ("h.example")
    (Or.inr rfl)

/-- Claim C5: after a successful auto-provisioned resolution with
pinning enabled, the host's pin set contains the key hash of every
certificate of the served chain; a second resolution serving the same
chain leaves the whole pin cache exactly as it was (insert-if-absent is
idempotent, so the pin set does not grow). -/
theorem pinning_records_hashes_idempotent
    (keyHash : Nat → Option String) (manager : String → Except String TLSCert)
    (st : TLSState) (sn : String) (crt : TLSCert)
    (hm : lookupAssoc st.nameToCert sn = none)
    (ha : st.auto = true) (hp : st.keyPinning = true)
    (hmgr : manager sn = Except.ok crt)
    (hok : ∀ d ∈ crt.certificate, (keyHash d).isSome) :
    (getCertificate keyHash manager st sn).1 = CertResult.cert crt
  ∧ (∀ d ∈ crt.certificate, ∀ hv, keyHash d = some hv →
      hv ∈ (lookupAssoc (getCertificate keyHash manager st sn).2 sn).getD [])
  ∧ (getCertificate keyHash manager
      { st with pins := (getCertificate keyHash manager st sn).2 } sn).2
      = (getCertificate keyHash manager st sn).2 := by
  have hall := addHashes_all_ok keyHash crt.certificate
    ((lookupAssoc st.pins sn).getD []) hok
  have hpair : addHashes keyHash ((lookupAssoc st.pins sn).getD [])
      crt.certificate
      = ((addHashes keyHash ((lookupAssoc st.pins sn).getD [])
          crt.certificate).1, none) := by
    rw [← hall.1]
  have hmain : getCertificate keyHash manager st sn
      = (CertResult.cert crt,
         storePins st.pins sn
           (addHashes keyHash ((lookupAssoc st.pins sn).getD [])
             crt.certificate).1) := by
    unfold getCertificate
    simp only [hm, ha, hmgr, hp, if_true]
    rw [hpair]
  have hlook : lookupAssoc (getCertificate keyHash manager st sn).2 sn
      = some (addHashes keyHash ((lookupAssoc st.pins sn).getD [])
          crt.certificate).1 := by
    rw [hmain]
    exact storePins_lookup_self st.pins sn _
  have hmem : ∀ d ∈ crt.certificate, ∀ hv, keyHash d = some hv →
      hv ∈ (addHashes keyHash ((lookupAssoc st.pins sn).getD [])
        crt.certificate).1 :=
    hall.2.2
  have hgen : ∀ pc : PinCache,
      lookupAssoc pc sn
        = some (addHashes keyHash ((lookupAssoc st.pins sn).getD [])
            crt.certificate).1 →
      getCertificate keyHash manager { st with pins := pc } sn
        = (CertResult.cert crt,
           storePins pc sn
             (addHashes keyHash ((lookupAssoc st.pins sn).getD [])
               crt.certificate).1) := by
    intro pc hpc
    have hfix : addHashes keyHash
        ((lookupAssoc pc sn).getD []) crt.certificate
        = ((addHashes keyHash ((lookupAssoc st.pins sn).getD [])
            crt.certificate).1, none) := by
      rw [hpc]
      apply addHashes_fixed
      intro d hd
      obtain ⟨hv, hhv⟩ := Option.isSome_iff_exists.mp (hok d hd)
      exact ⟨hv, hhv, hmem d hd hv hhv⟩
    unfold getCertificate
    simp only [hm, ha, hmgr, hp, if_true]
    rw [hfix]
  refine ⟨by rw [hmain], ?_, ?_⟩
  · intro d hd hv hkh
    rw [hlook]
    exact hmem d hd hv hkh
  · rw [hgen (getCertificate keyHash manager st sn).2 hlook, hmain]
    exact storePins_self _ sn _ (storePins_lookup_self st.pins sn _)

/-- Witness for C5: the recorded hash `h7` of the auto-served chain is
in the pin set of `pin.example` after resolution. -/
theorem pinning_records_hashes_witness :
    ("h7") ∈ (lookupAssoc (getCertificate khFix mgrFix stAuto
        ("pin.example")).2 ("pin.example")).getD [] :=
  (pinning_records_hashes_idempotent khFix mgrFix stAuto ("pin.example")
    crtAuto rfl rfl rfl rfl (by decide)).2.1 7 (by decide) ("h7") rfl

/-- Counterexample to claim C3: on a record missing `name`, `Decode`
does not return an error value — it panics (the `rp["name"].(string)`
type assertion), so no caller ever sees a `ConfigDecodeError` result. -/
theorem decode_missing_name_panics_cex :
    Decode mdOk [(("order"), GoVal.int 1)]
      = GoResult.panicked ("name type assertion failed") := by
  decide

/-- Claim C3 as amended: `Decode` signals every failure by panicking,
never by an error result — the name type assertion panics when `name`
is absent or not a string, the order type assertion panics when `order`
is absent or not an int, and an unknown plugin name panics with
`plugin=<name> not found`. -/
theorem decode_panics_not_errors (md : RawPlugin → Base → Except String Base)
    (r : RawPlugin) :
    (strOf (lookupAssoc r ("name")) = none →
      Decode md r = GoResult.panicked ("name type assertion failed"))
  ∧ (∀ nm, strOf (lookupAssoc r ("name")) = some nm →
      intOf (lookupAssoc r ("order")) = none →
      Decode md r = GoResult.panicked ("order type assertion failed"))
  ∧ (∀ nm, strOf (lookupAssoc r ("name")) = some nm →
      ∀ k, intOf (lookupAssoc r ("order")) = some k →
      nm ∉ pluginNames →
      Decode md r = GoResult.panicked (("plugin=") ++ nm ++ (" not found"))) := by
  refine ⟨?_, ?_, ?_⟩
  · intro h
    unfold Decode rpName
    cases hv : lookupAssoc r ("name") with
    | none => rfl
    | some v =>
      cases v with
      | str s =>
        rw [hv] at h
        simp [strOf] at h
      | int n => rfl
      | bool b => rfl
      | other => rfl
  · intro nm h1 h2
    have hv : lookupAssoc r ("name") = some (GoVal.str nm) := by
      cases hv : lookupAssoc r ("name") with
      | none => rw [hv] at h1; simp [strOf] at h1
      | some v =>
        cases v with
        | str s =>
          rw [hv] at h1
          simp [strOf] at h1
          rw [h1]
        | int n => rw [hv] at h1; simp [strOf] at h1
        | bool b => rw [hv] at h1; simp [strOf] at h1
        | other => rw [hv] at h1; simp [strOf] at h1
    unfold Decode rpName rpOrder
    rw [hv]
    cases hw : lookupAssoc r ("order") with
    | none => rfl
    | some w =>
      cases w with
      | str s => rfl
      | int n =>
        rw [hw] at h2
        simp [intOf] at h2
      | bool b => rfl
      | other => rfl
  · intro nm h1 k h2 h3
    have hv : lookupAssoc r ("name") = some (GoVal.str nm) := by
      cases hv : lookupAssoc r ("name") with
      | none => rw [hv] at h1; simp [strOf] at h1
      | some v =>
        cases v with
        | str s =>
          rw [hv] at h1
          simp [strOf] at h1
          rw [h1]
        | int n => rw [hv] at h1; simp [strOf] at h1
        | bool b => rw [hv] at h1; simp [strOf] at h1
        | other => rw [hv] at h1; simp [strOf] at h1
    have hw : lookupAssoc r ("order") = some (GoVal.int k) := by
      cases hw : lookupAssoc r ("order") with
      | none => rw [hw] at h2; simp [intOf] at h2
      | some w =>
        cases w with
        | str s => rw [hw] at h2; simp [intOf] at h2
        | int n =>
          rw [hw] at h2
          simp [intOf] at h2
          rw [h2]
        | bool b => rw [hw] at h2; simp [intOf] at h2
        | other => rw [hw] at h2; simp [intOf] at h2
    unfold Decode rpName rpOrder
    rw [hv, hw]
    simp [h3]

/-- Witness for the amended C3: a record with a bogus name panics with
`plugin=bogus not found`. -/
theorem decode_panics_witness :
    Decode mdOk [(("name"), GoVal.str ("bogus")), (("order"), GoVal.int 1)]
      = GoResult.panicked (("plugin=") ++ ("bogus") ++ (" not found")) :=
  (decode_panics_not_errors mdOk
    [(("name"), GoVal.str ("bogus")), (("order"), GoVal.int 1)]).2.2
    ("bogus") (by decide) 1 (by decide) (by decide)

/-- Counterexample to claim C6: a complete interleaved run of two
handshakes for the same host in which both threads finish yet the hash
recorded by thread 1 is absent from the final pin set — the update is
lost because the read and insert precede the mutex acquisition. -/
theorem pin_lost_update_cex :
    runSched pinRaceSched (pinInit ("hashA") ("hashB")) = some pinRaceFinal
  ∧ ("hashA") ∉ pinRaceFinal.shared
  ∧ pinRaceFinal.t1.pc = PC.done ∧ pinRaceFinal.t2.pc = PC.done := by
  decide

/-- Claim C6 as amended: only the store-back of the host's pin set runs
under the pin cache's mutex; the read of the current set and the hash
insertion happen before the lock is taken (they proceed even while the
mutex is held, and only the acquisition blocks), so only serialized —
not interleaved — handshakes are guaranteed to accumulate both
threads' hashes. -/
theorem pin_rmw_outside_mutex (a b : String) (shared : PinSet)
    (t : PinThread) :
    (pinThreadStep shared true { t with pc := PC.start }).isSome = true
  ∧ (pinThreadStep shared true { t with pc := PC.readDone }).isSome = true
  ∧ pinThreadStep shared true { t with pc := PC.computed } = none
  ∧ (∃ s, runSched pinSeqSched (pinInit a b) = some s
      ∧ a ∈ s.shared ∧ b ∈ s.shared) := by
  refine ⟨rfl, rfl, rfl,
    ⟨{ shared := insertAll [b] (insertAll [a] []), mutexHeld := false,
       t1 := { pc := PC.done, localSet := insertAll [a] [], hashes := [a] },
       t2 := { pc := PC.done, localSet := insertAll [b] (insertAll [a] []),
               hashes := [b] } }, rfl, ?_, ?_⟩⟩
  · show a ∈ pinInsert b (pinInsert a [])
    exact mem_pinInsert_of_mem a b _ (mem_pinInsert_self a [])
  · show b ∈ pinInsert b (pinInsert a [])
    exact mem_pinInsert_self b _

end Armor
